import Mathlib

/-!
Verification of the rpcplugin Go package (handshake and lifecycle protocol).

We shallowly embed the relevant parts of the source into Lean:

* Go strings are modelled as `List Char` (`GoStr`); the Go standard-library
  helpers the package uses (`strings.TrimSpace`, `strings.Split`,
  `strings.SplitN`, `strconv.Atoi`, `strconv.Itoa`, `encoding/base64`)
  are reimplemented here with matching semantics on the inputs that occur.
* Process-level nondeterminism (listener bind results, pipe creation,
  certificate generation, the caller context's termination cause) is passed
  in explicitly as parameters, and stateful steps of `Serve` are recorded
  as an effect trace.
-/

namespace Rpcplugin

/-- Go strings modelled as character lists. -/
abbrev GoStr := List Char

/-- Coerce a Lean string literal to the `GoStr` model. -/
def gs (s : String) : GoStr := s.toList

/-- The process environment: key/value pairs.  `ctxenv.Getenv` returns the
empty string for unset variables, like `os.Getenv`. -/
abbrev Env := List (GoStr × GoStr)

/-- Model of `ctxenv.Getenv` / `os.Getenv`: empty string when unset. -/
def getenv (env : Env) (k : GoStr) : GoStr :=
  (((env.find? fun p => decide (p.1 = k)).map Prod.snd).getD [])

/-- Go `unicode.IsSpace` restricted to the ASCII range (the only characters
that occur in handshake lines): space, tab, newline, vertical tab, form
feed, carriage return. -/
def isGoSpace (c : Char) : Bool :=
  c = ' ' || c = '\t' || c = '\n' || c = '\x0b' || c = '\x0c' || c = '\r'

/-- Model of `strings.TrimSpace`: drop leading and trailing whitespace. -/
def trimSpace (s : GoStr) : GoStr :=
  ((s.dropWhile isGoSpace).reverse.dropWhile isGoSpace).reverse

/-- Split a string at the first occurrence of `sep`: returns the prefix and,
when the separator occurs, the remainder after it. -/
def breakAtFirst (sep : Char) : GoStr → GoStr × Option GoStr
  | [] => ([], none)
  | c :: r =>
    if c = sep then ([], some r)
    else
      let p := breakAtFirst sep r
      (c :: p.1, p.2)

/-- Model of `strings.SplitN(s, sep, n)` for `n ≥ 1` (single-char separator,
which is the only case the package uses).  With budget 1 the rest of the
string is returned whole, undivided. -/
def goSplitN (sep : Char) : Nat → GoStr → List GoStr
  | 0, s => [s]
  | 1, s => [s]
  | n + 2, s =>
    match breakAtFirst sep s with
    | (_, none) => [s]
    | (a, some r) => a :: goSplitN sep (n + 1) r

/-- Fuel-driven worker for `goSplit`; the fuel is an upper bound on the
number of separators, so `length s` is always enough. -/
def goSplitAux (sep : Char) : Nat → GoStr → List GoStr
  | 0, s => [s]
  | fuel + 1, s =>
    match breakAtFirst sep s with
    | (_, none) => [s]
    | (a, some r) => a :: goSplitAux sep fuel r

/-- Model of `strings.Split(s, sep)` (single-char separator). -/
def goSplit (sep : Char) (s : GoStr) : List GoStr :=
  goSplitAux sep s.length s

/-- Decimal digit value of a character, if it is one. -/
def charDigit (c : Char) : Option Nat :=
  if 48 ≤ c.toNat ∧ c.toNat ≤ 57 then some (c.toNat - 48) else none

/-- The digit-consuming loop of Go `strconv.ParseUint` (base 10): fold the
digits left to right, failing on any non-digit.  Overflow is not modelled;
protocol versions are tiny. -/
def parseDigits (acc : Nat) : GoStr → Option Nat
  | [] => some acc
  | c :: r =>
    match charDigit c with
    | some d => parseDigits (10 * acc + d) r
    | none => none

/-- Digits-only part of `strconv.Atoi`: empty input and non-digits fail. -/
def digitsToNat (s : GoStr) : Option Nat :=
  if s = [] then none else parseDigits 0 s

/-- Model of Go `strconv.Atoi`: optional sign followed by decimal digits. -/
def goAtoi (s : GoStr) : Option Int :=
  match s with
  | [] => none
  | c :: rest =>
    if c = '+' then (digitsToNat rest).map Int.ofNat
    else if c = '-' then (digitsToNat rest).map fun n => -Int.ofNat n
    else (digitsToNat (c :: rest)).map Int.ofNat

/-- The decimal digit character for `d < 10`. -/
def digitChar (d : Nat) : Char := Char.ofNat (48 + d)

/-- Fuel-driven decimal printer (most significant digit first).  The fuel
is an upper bound on the value, so `n` itself is always enough. -/
def natDecAux : Nat → Nat → GoStr
  | 0, _ => []
  | fuel + 1, n =>
    if n = 0 then [] else natDecAux fuel (n / 10) ++ [digitChar (n % 10)]

/-- Decimal representation of a natural number, as Go `fmt` and
`strconv` print it. -/
def natToDec (n : Nat) : GoStr :=
  if n = 0 then ['0'] else natDecAux n n

/-- Model of Go `strconv.Itoa` / `fmt.Sprintf("%d", ·)` on `int`. -/
def itoa (v : Int) : GoStr :=
  if v < 0 then '-' :: natToDec v.natAbs else natToDec v.toNat

/-! ### Basic lemmas about the string helpers -/

theorem breakAtFirst_not_mem {sep : Char} :
    ∀ {s : GoStr}, sep ∉ s → breakAtFirst sep s = (s, none)
  | [], _ => rfl
  | c :: r, h => by
    have hc : ¬ c = sep := fun he => h (he ▸ List.mem_cons_self c r)
    have hr : sep ∉ r := fun hm => h (List.mem_cons_of_mem _ hm)
    simp [breakAtFirst, hc, breakAtFirst_not_mem hr]

theorem breakAtFirst_append {sep : Char} :
    ∀ {a : GoStr} (r : GoStr), sep ∉ a →
      breakAtFirst sep (a ++ sep :: r) = (a, some r)
  | [], r, _ => by simp [breakAtFirst]
  | c :: a, r, h => by
    have hc : ¬ c = sep := fun he => h (he ▸ List.mem_cons_self c a)
    have ha : sep ∉ a := fun hm => h (List.mem_cons_of_mem _ hm)
    simp [breakAtFirst, hc, breakAtFirst_append r ha]

theorem goSplitN_step {sep : Char} {a : GoStr} (r : GoStr) (n : Nat)
    (h : sep ∉ a) :
    goSplitN sep (n + 2) (a ++ sep :: r) = a :: goSplitN sep (n + 1) r := by
  simp [goSplitN, breakAtFirst_append r h]

theorem goSplitN_one (sep : Char) (s : GoStr) : goSplitN sep 1 s = [s] := rfl

theorem dropWhile_id_of_head {p : Char → Bool} :
    ∀ {s : GoStr}, (∀ c ∈ s.head?, p c = false) → s.dropWhile p = s
  | [], _ => rfl
  | c :: r, h => by
    have := h c (by simp)
    simp [List.dropWhile_cons, this]

theorem trimSpace_id {s : GoStr}
    (h1 : ∀ c ∈ s.head?, isGoSpace c = false)
    (h2 : ∀ c ∈ s.getLast?, isGoSpace c = false) :
    trimSpace s = s := by
  unfold trimSpace
  rw [dropWhile_id_of_head h1]
  rw [dropWhile_id_of_head (by simpa [List.head?_reverse] using h2)]
  exact List.reverse_reverse s

/-- `takeWhile` runs through a prefix on which the predicate holds and stops
at the first failing element. -/
theorem takeWhile_append_stop {p : Char → Bool} {d : Char} (t : GoStr)
    (hd : p d = false) :
    ∀ {s : GoStr}, (∀ c ∈ s, p c = true) →
      (s ++ d :: t).takeWhile p = s
  | [], _ => by simp [List.takeWhile_cons, hd]
  | c :: r, h => by
    have hc := h c (by simp)
    have hr : ∀ c ∈ r, p c = true := fun c hm => h c (List.mem_cons_of_mem _ hm)
    simp [List.takeWhile_cons, hc, takeWhile_append_stop t hd hr]

/-! ### Decimal round trip: `goAtoi (itoa v) = some v` -/

theorem charDigit_digitChar {d : Nat} (h : d < 10) :
    charDigit (digitChar d) = some d := by
  interval_cases d <;> decide

theorem parseDigits_append (acc : Nat) :
    ∀ (a b : GoStr), parseDigits acc (a ++ b) =
      match parseDigits acc a with
      | some m => parseDigits m b
      | none => none
  | [], _ => rfl
  | c :: r, b => by
    cases h : charDigit c with
    | none => simp [parseDigits, h]
    | some d => simp [parseDigits, h, parseDigits_append (10 * acc + d) r b]

theorem parseDigits_natDecAux :
    ∀ (fuel n acc : Nat), n ≤ fuel →
      parseDigits acc (natDecAux fuel n) =
        some (acc * 10 ^ (natDecAux fuel n).length + n)
  | 0, n, acc, h => by
    have : n = 0 := Nat.le_zero.mp h
    subst this; simp [natDecAux, parseDigits]
  | fuel + 1, n, acc, h => by
    by_cases hn : n = 0
    · subst hn; simp [natDecAux, parseDigits]
    · have hdiv : n / 10 ≤ fuel := by
        have h1 : n / 10 < n := Nat.div_lt_self (Nat.pos_of_ne_zero hn) (by omega)
        omega
      have ih := parseDigits_natDecAux fuel (n / 10) acc hdiv
      have hmod : n % 10 < 10 := Nat.mod_lt _ (by omega)
      have hm : 10 * (n / 10) + n % 10 = n := by
        have := Nat.div_add_mod n 10
        omega
      simp only [natDecAux, if_neg hn]
      rw [parseDigits_append, ih]
      simp only [parseDigits, charDigit_digitChar hmod, List.length_append,
        List.length_singleton]
      congr 1
      rw [pow_succ]
      calc 10 * (acc * 10 ^ (natDecAux fuel (n / 10)).length + n / 10) + n % 10
          = acc * (10 ^ (natDecAux fuel (n / 10)).length * 10)
              + (10 * (n / 10) + n % 10) := by ring
        _ = acc * (10 ^ (natDecAux fuel (n / 10)).length * 10) + n := by rw [hm]

theorem natDecAux_ne_nil {fuel n : Nat} (hf : n ≤ fuel) (hn : n ≠ 0) :
    natDecAux fuel n ≠ [] := by
  cases fuel with
  | zero => omega
  | succ fuel => simp [natDecAux, hn]

theorem digitChar_range {d : Nat} (h : d < 10) :
    48 ≤ (digitChar d).toNat ∧ (digitChar d).toNat ≤ 57 := by
  interval_cases d <;> decide

theorem natDecAux_chars :
    ∀ (fuel n : Nat), ∀ c ∈ natDecAux fuel n,
      48 ≤ c.toNat ∧ c.toNat ≤ 57
  | 0, _, c, hc => by simp [natDecAux] at hc
  | fuel + 1, n, c, hc => by
    by_cases hn : n = 0
    · subst hn; simp [natDecAux] at hc
    · simp only [natDecAux, if_neg hn, List.mem_append, List.mem_singleton] at hc
      rcases hc with hc | hc
      · exact natDecAux_chars fuel (n / 10) c hc
      · subst hc; exact digitChar_range (Nat.mod_lt _ (by omega))

theorem natToDec_chars {n : Nat} :
    ∀ c ∈ natToDec n, 48 ≤ c.toNat ∧ c.toNat ≤ 57 := by
  intro c hc
  unfold natToDec at hc
  by_cases hn : n = 0
  · simp [hn] at hc; subst hc; decide
  · rw [if_neg hn] at hc
    exact natDecAux_chars n n c hc

theorem itoa_chars {v : Int} :
    ∀ c ∈ itoa v, 45 ≤ c.toNat ∧ c.toNat ≤ 57 := by
  intro c hc
  unfold itoa at hc
  by_cases hv : v < 0
  · rw [if_pos hv] at hc
    rcases List.mem_cons.mp hc with hc | hc
    · subst hc; decide
    · have := natToDec_chars c hc; omega
  · rw [if_neg hv] at hc
    have := natToDec_chars c hc; omega

theorem digitsToNat_natToDec (n : Nat) : digitsToNat (natToDec n) = some n := by
  by_cases hn : n = 0
  · subst hn; decide
  · have hne := natDecAux_ne_nil (Nat.le_refl n) hn
    unfold natToDec
    rw [if_neg hn]
    unfold digitsToNat
    rw [if_neg hne]
    rw [parseDigits_natDecAux n n 0 (Nat.le_refl n)]
    simp

theorem int_ofNat_eq (n : Nat) : Int.ofNat n = (n : Int) := rfl

theorem goAtoi_cons (c : Char) (rest : GoStr) :
    goAtoi (c :: rest) =
      if c = '+' then (digitsToNat rest).map Int.ofNat
      else if c = '-' then (digitsToNat rest).map fun n => -Int.ofNat n
      else (digitsToNat (c :: rest)).map Int.ofNat := rfl

theorem goAtoi_itoa (v : Int) : goAtoi (itoa v) = some v := by
  by_cases hv : v < 0
  · unfold itoa
    rw [if_pos hv, goAtoi_cons]
    rw [if_neg (by decide), if_pos rfl, digitsToNat_natToDec]
    simp only [Option.map_some', int_ofNat_eq]
    congr 1
    omega
  · unfold itoa
    rw [if_neg hv]
    have hne : natToDec v.toNat ≠ [] := by
      unfold natToDec
      by_cases h0 : v.toNat = 0
      · simp [h0]
      · rw [if_neg h0]; exact natDecAux_ne_nil (Nat.le_refl _) h0
    obtain ⟨c, rest, hcr⟩ := List.exists_cons_of_ne_nil hne
    have hc : 48 ≤ c.toNat ∧ c.toNat ≤ 57 := by
      apply @natToDec_chars v.toNat
      rw [hcr]; exact List.mem_cons_self c rest
    have hplus : ¬ c = '+' := by
      intro h; subst h; revert hc; decide
    have hminus : ¬ c = '-' := by
      intro h; subst h; revert hc; decide
    rw [hcr, goAtoi_cons]
    rw [if_neg hplus, if_neg hminus, ← hcr, digitsToNat_natToDec]
    simp only [Option.map_some', int_ofNat_eq]
    congr 1
    omega

/-! ### Base64 (Go `encoding/base64`)

`StdEncoding` is the padded standard alphabet; `RawStdEncoding` is the same
alphabet with padding disabled (a `=` is a corrupt-input error there).  Go's
decoder additionally skips CR/LF characters inside the input; certificates
in handshake lines never contain them, so we model the strict core. -/

/-- Value of a standard-alphabet base64 character. -/
def b64Val (c : Char) : Option Nat :=
  let n := c.toNat
  if 65 ≤ n ∧ n ≤ 90 then some (n - 65)
  else if 97 ≤ n ∧ n ≤ 122 then some (n - 71)
  else if 48 ≤ n ∧ n ≤ 57 then some (n + 4)
  else if c = '+' then some 62
  else if c = '/' then some 63
  else none

/-- Model of `base64.RawStdEncoding.DecodeString` (unpadded):
full 4-character quanta yield 3 bytes; a trailing quantum of 2 or 3
characters yields 1 or 2 bytes; a trailing quantum of 1 character and any
non-alphabet character (including `=`) are corrupt input.  Go's default
(non-strict) mode ignores leftover bits in a short final quantum. -/
def rawB64Decode : GoStr → Option (List Nat)
  | [] => some []
  | [a, b] => do
    let va ← b64Val a
    let vb ← b64Val b
    pure [va * 4 + vb / 16]
  | [a, b, c] => do
    let va ← b64Val a
    let vb ← b64Val b
    let vc ← b64Val c
    pure [va * 4 + vb / 16, vb % 16 * 16 + vc / 4]
  | a :: b :: c :: d :: rest => do
    let va ← b64Val a
    let vb ← b64Val b
    let vc ← b64Val c
    let vd ← b64Val d
    let tail ← rawB64Decode rest
    pure ([va * 4 + vb / 16, vb % 16 * 16 + vc / 4, vc % 4 * 64 + vd] ++ tail)
  | [_] => none

/-- Model of `base64.StdEncoding.DecodeString` (padded): the length must be
a multiple of 4; `=` may appear only as the last one or two characters. -/
def stdB64Decode : GoStr → Option (List Nat)
  | [] => some []
  | [a, b, '=', '='] => do
    let va ← b64Val a
    let vb ← b64Val b
    pure [va * 4 + vb / 16]
  | [a, b, c, '='] => do
    let va ← b64Val a
    let vb ← b64Val b
    let vc ← b64Val c
    pure [va * 4 + vb / 16, vb % 16 * 16 + vc / 4]
  | a :: b :: c :: d :: rest => do
    let va ← b64Val a
    let vb ← b64Val b
    let vc ← b64Val c
    let vd ← b64Val d
    let tail ← stdB64Decode rest
    pure ([va * 4 + vb / 16, vb % 16 * 16 + vc / 4, vc % 4 * 64 + vd] ++ tail)
  | _ => none

/-- Character for a 6-bit value under the standard alphabet. -/
def b64Char (n : Nat) : Char :=
  if n < 26 then Char.ofNat (65 + n)
  else if n < 52 then Char.ofNat (71 + n)
  else if n < 62 then Char.ofNat (n - 4)
  else if n = 62 then '+'
  else '/'

/-- Model of `base64.RawStdEncoding.EncodeToString` on a byte list. -/
def rawB64Encode : List Nat → GoStr
  | [] => []
  | [b0] => [b64Char (b0 / 4), b64Char (b0 % 4 * 16)]
  | [b0, b1] => [b64Char (b0 / 4), b64Char (b0 % 4 * 16 + b1 / 16),
      b64Char (b1 % 16 * 4)]
  | b0 :: b1 :: b2 :: rest =>
    [b64Char (b0 / 4), b64Char (b0 % 4 * 16 + b1 / 16),
      b64Char (b1 % 16 * 4 + b2 / 64), b64Char (b2 % 64)] ++ rawB64Encode rest

/-- Model of `base64.StdEncoding.EncodeToString` on a byte list. -/
def stdB64Encode : List Nat → GoStr
  | [] => []
  | [b0] => [b64Char (b0 / 4), b64Char (b0 % 4 * 16), '=', '=']
  | [b0, b1] => [b64Char (b0 / 4), b64Char (b0 % 4 * 16 + b1 / 16),
      b64Char (b1 % 16 * 4), '=']
  | b0 :: b1 :: b2 :: rest =>
    [b64Char (b0 / 4), b64Char (b0 % 4 * 16 + b1 / 16),
      b64Char (b1 % 16 * 4 + b2 / 64), b64Char (b2 % 64)] ++ stdB64Encode rest

/-- Characters of a string accepted by the raw decoder lie in the base64
alphabet, so in particular they are not pipes, whitespace or newlines. -/
theorem rawB64Decode_chars :
    ∀ {s : GoStr} {bs : List Nat}, rawB64Decode s = some bs →
      ∀ c ∈ s, (b64Val c).isSome
  | [], _, _, c, hc => by simp at hc
  | [a, b], bs, h, c, hc => by
    rcases ha : b64Val a with _ | va <;> rcases hb : b64Val b with _ | vb <;>
      simp [rawB64Decode, ha, hb] at h
    rcases List.mem_cons.mp hc with rfl | hc
    · simp [ha]
    rcases List.mem_cons.mp hc with rfl | hc
    · simp [hb]
    simp at hc
  | [a, b, c0], bs, h, c, hc => by
    rcases ha : b64Val a with _ | va <;> rcases hb : b64Val b with _ | vb <;>
      rcases hc0 : b64Val c0 with _ | vc <;>
      simp [rawB64Decode, ha, hb, hc0] at h
    rcases List.mem_cons.mp hc with rfl | hc
    · simp [ha]
    rcases List.mem_cons.mp hc with rfl | hc
    · simp [hb]
    rcases List.mem_cons.mp hc with rfl | hc
    · simp [hc0]
    simp at hc
  | a :: b :: c0 :: d :: rest, bs, h, c, hc => by
    rcases ha : b64Val a with _ | va <;> rcases hb : b64Val b with _ | vb <;>
      rcases hc0 : b64Val c0 with _ | vc <;> rcases hd : b64Val d with _ | vd <;>
      rcases ht : rawB64Decode rest with _ | tl <;>
      simp [rawB64Decode, ha, hb, hc0, hd, ht] at h
    rcases List.mem_cons.mp hc with rfl | hc
    · simp [ha]
    rcases List.mem_cons.mp hc with rfl | hc
    · simp [hb]
    rcases List.mem_cons.mp hc with rfl | hc
    · simp [hc0]
    rcases List.mem_cons.mp hc with rfl | hc
    · simp [hd]
    exact rawB64Decode_chars ht c hc
  | [_], _, h, _, _ => by simp [rawB64Decode] at h

/-! ### The handshake line

Emission is `fmt.Fprintf(handshakeOut, "1|%d|%s|%s|grpc|%s\n", ...)` in
`Serve` (server.go); parsing is the body of the `case line := <-stdoutCh`
branch of `New` (plugin.go).  Address resolution (`net.ResolveTCPAddr`,
`net.ResolveUnixAddr`) and certificate parsing (`x509.ParseCertificate`)
are Go standard-library calls; they enter the model as boolean-valued
parameters.  Error values carry the (constant part of the) message the
code formats. -/

/-- The data `New` extracts from a valid handshake line: the negotiated
protocol version, the transport name and address for dialling, and the
pinned certificate string, when one was advertised and accepted. -/
structure Handshake where
  protoVersion : Int
  network : GoStr
  addr : GoStr
  certStr : Option GoStr
deriving DecidableEq, Repr

/-- The newline-free part of the line `Serve` emits, grouped so that each
pipe-separated field is explicit. -/
def handshakeBody (v : Int) (network addr cert : GoStr) : GoStr :=
  gs "1" ++ '|' :: (itoa v ++ '|' :: (network ++ '|' ::
    (addr ++ '|' :: (gs "grpc" ++ '|' :: cert))))

/-- The line `Serve` emits:
`"1|%d|%s|%s|grpc|%s\n" % (protoVersion, network, addr, cert)`. -/
def handshakeLine (v : Int) (network addr cert : GoStr) : GoStr :=
  handshakeBody v network addr cert ++ ['\n']

/-- One `bufio.Scanner` line (`bufio.ScanLines`): everything before the
first newline, with one trailing carriage return dropped. -/
def scanFirstLine (s : GoStr) : GoStr :=
  let l := s.takeWhile fun c => ¬ c = '\n'
  if l.getLast? = some '\r' then l.dropLast else l

/-- The certificate step of `New` (plugin.go): `parts[5]`, when present and
longer than 50 characters, is decoded with `base64.RawStdEncoding` and
parsed as an X.509 certificate (`x509Ok` stands for
`x509.ParseCertificate` succeeding); shorter values are ignored. -/
def certStep (x509Ok : List Nat → Bool) (v : Int) (network addr : GoStr) :
    List GoStr → Except GoStr Handshake
  | p5 :: _ =>
    if 50 < p5.length then
      match rawB64Decode p5 with
      | none => .error (gs "failed to parse plugin server's temporary certificate")
      | some bytes =>
        if x509Ok bytes then .ok ⟨v, network, addr, some p5⟩
        else .error (gs "failed to parse plugin server's temporary certificate")
    else .ok ⟨v, network, addr, none⟩
  | [] => .ok ⟨v, network, addr, none⟩

/-- The handshake-parsing block of `New` (plugin.go lines 173-256):
trim, split into at most 6 parts, then validate in the order of the code:
first field `"1"`, fifth field `"grpc"`, a known protocol version, a
resolvable tcp/unix address, and finally the optional certificate. -/
def parseHandshake (protoVersions : List Int)
    (resolveTCP resolveUnix : GoStr → Bool) (x509Ok : List Nat → Bool)
    (line : GoStr) : Except GoStr Handshake :=
  match goSplitN '|' 6 (trimSpace line) with
  | p0 :: p1 :: p2 :: p3 :: p4 :: rest =>
    if p0 = gs "1" then
      if p4 = gs "grpc" then
        match goAtoi p1 with
        | none => .error (gs "invalid protocol version from plugin server")
        | some v =>
          if v ∈ protoVersions then
            if p2 = gs "tcp" then
              if resolveTCP p3 then certStep x509Ok v p2 p3 rest
              else .error (gs "plugin server provided invalid TCP socket address")
            else if p2 = gs "unix" then
              if resolveUnix p3 then certStep x509Ok v p2 p3 rest
              else .error (gs "plugin server provided invalid Unix socket address")
            else .error (gs "plugin server selected unsupported transport protocol")
          else .error (gs "plugin server selected unsupported protocol version")
      else .error (gs "invalid RPC protocol from plugin server")
    else .error (gs "invalid handshake version from plugin server")
  | _ => .error (gs "invalid handshake message from plugin server")

/-- `Except.ok`-ness, as a Boolean. -/
def isOkE {e a : Type} : Except e a → Bool
  | .ok _ => true
  | .error _ => false

/-! ### Parsing an emitted line -/

theorem gs_one : gs "1" = ['1'] := rfl

theorem gs_grpc : gs "grpc" = ['g', 'r', 'p', 'c'] := rfl

theorem gs_tcp : gs "tcp" = ['t', 'c', 'p'] := rfl

theorem gs_unix : gs "unix" = ['u', 'n', 'i', 'x'] := rfl

theorem getLast?_append_right (a : GoStr) :
    ∀ {b : GoStr}, b ≠ [] → (a ++ b).getLast? = b.getLast? := by
  induction a with
  | nil => intro b _; rfl
  | cons x a ih =>
    intro b hb
    obtain ⟨y, t, rfl⟩ := List.exists_cons_of_ne_nil hb
    rw [List.cons_append]
    cases ha : a ++ y :: t with
    | nil => exact absurd ha (by simp)
    | cons z w =>
      rw [List.getLast?_cons_cons, ← ha]
      exact ih (by simp)

theorem goSplitN_step6 {a : GoStr} (r : GoStr) (h : '|' ∉ a) :
    goSplitN '|' 6 (a ++ '|' :: r) = a :: goSplitN '|' 5 r := goSplitN_step r 4 h

theorem goSplitN_step5 {a : GoStr} (r : GoStr) (h : '|' ∉ a) :
    goSplitN '|' 5 (a ++ '|' :: r) = a :: goSplitN '|' 4 r := goSplitN_step r 3 h

theorem goSplitN_step4 {a : GoStr} (r : GoStr) (h : '|' ∉ a) :
    goSplitN '|' 4 (a ++ '|' :: r) = a :: goSplitN '|' 3 r := goSplitN_step r 2 h

theorem goSplitN_step3 {a : GoStr} (r : GoStr) (h : '|' ∉ a) :
    goSplitN '|' 3 (a ++ '|' :: r) = a :: goSplitN '|' 2 r := goSplitN_step r 1 h

theorem goSplitN_step2 {a : GoStr} (r : GoStr) (h : '|' ∉ a) :
    goSplitN '|' 2 (a ++ '|' :: r) = a :: goSplitN '|' 1 r := goSplitN_step r 0 h

theorem itoa_no_pipe {v : Int} : '|' ∉ itoa v := fun hm => by
  have := itoa_chars _ hm
  revert this; decide

theorem itoa_no_newline {v : Int} : '\n' ∉ itoa v := fun hm => by
  have := itoa_chars _ hm
  revert this; decide

/-- No character of the emitted body is a newline, under the field
conditions of a valid handshake tuple. -/
theorem handshakeBody_no_newline {v : Int} {net addr cert : GoStr}
    (hnet : net = gs "tcp" ∨ net = gs "unix")
    (haddr : '\n' ∉ addr) (hcert : '\n' ∉ cert) :
    ∀ c ∈ handshakeBody v net addr cert, ¬ c = '\n' := by
  intro c hc heq
  subst heq
  simp only [handshakeBody, gs_one, gs_grpc] at hc
  simp at hc
  rcases hc with hc | hc | hc | hc
  · exact itoa_no_newline hc
  · rcases hnet with rfl | rfl
    · rw [gs_tcp] at hc; exact absurd hc (by decide)
    · rw [gs_unix] at hc; exact absurd hc (by decide)
  · exact haddr hc
  · exact hcert hc

theorem getLast?_cons_of_ne {x : Char} {l : GoStr} (h : l ≠ []) :
    (x :: l).getLast? = l.getLast? := by
  obtain ⟨z, w, rfl⟩ := List.exists_cons_of_ne_nil h
  exact List.getLast?_cons_cons

/-- The last character of the emitted body is the final `|` or the last
character of the certificate field, hence never whitespace for a valid
certificate field. -/
theorem handshakeBody_getLast {v : Int} {net addr cert : GoStr}
    (hlast : ∀ c ∈ cert.getLast?, isGoSpace c = false) :
    ∀ c ∈ (handshakeBody v net addr cert).getLast?, isGoSpace c = false := by
  intro c hc
  have h1 : (handshakeBody v net addr cert).getLast? = ('|' :: cert).getLast? := by
    unfold handshakeBody
    rw [getLast?_append_right _ (by simp), getLast?_cons_of_ne (by simp),
      getLast?_append_right _ (by simp), getLast?_cons_of_ne (by simp),
      getLast?_append_right _ (by simp), getLast?_cons_of_ne (by simp),
      getLast?_append_right _ (by simp), getLast?_cons_of_ne (by simp),
      getLast?_append_right _ (by simp)]
  rw [h1] at hc
  cases hcert : cert with
  | nil =>
    subst hcert
    simp at hc
    subst hc
    decide
  | cons y t =>
    rw [hcert, getLast?_cons_of_ne (by simp)] at hc
    rw [hcert] at hlast
    exact hlast c hc

/-- Scanning the emitted line yields exactly the body before the newline. -/
theorem scan_handshakeLine {v : Int} {net addr cert : GoStr}
    (hnet : net = gs "tcp" ∨ net = gs "unix")
    (haddr : '\n' ∉ addr) (hcert : '\n' ∉ cert)
    (hlast : ∀ c ∈ cert.getLast?, isGoSpace c = false) :
    scanFirstLine (handshakeLine v net addr cert) =
      handshakeBody v net addr cert := by
  unfold scanFirstLine handshakeLine
  have ht : (handshakeBody v net addr cert ++ ['\n']).takeWhile
      (fun c => decide (¬ c = '\n')) = handshakeBody v net addr cert :=
    takeWhile_append_stop [] (by decide)
      (fun c hm => decide_eq_true (handshakeBody_no_newline hnet haddr hcert c hm))
  simp only [ht]
  rw [if_neg]
  intro h
  have := @handshakeBody_getLast v net addr cert hlast '\r'
    (by rw [h]; rfl)
  revert this; decide

theorem trim_handshakeBody {v : Int} {net addr cert : GoStr}
    (hlast : ∀ c ∈ cert.getLast?, isGoSpace c = false) :
    trimSpace (handshakeBody v net addr cert) = handshakeBody v net addr cert := by
  apply trimSpace_id
  · intro c hc
    have : (handshakeBody v net addr cert).head? = some '1' := rfl
    rw [this] at hc
    simp at hc
    subst hc
    decide
  · exact handshakeBody_getLast hlast

/-- Splitting the emitted body recovers the six fields. -/
theorem split_handshakeBody {v : Int} {net addr cert : GoStr}
    (hnet : net = gs "tcp" ∨ net = gs "unix")
    (haddr : '|' ∉ addr) (hcert : '|' ∉ cert) :
    goSplitN '|' 6 (handshakeBody v net addr cert) =
      [gs "1", itoa v, net, addr, gs "grpc", cert] := by
  have hnetp : '|' ∉ net := by
    rcases hnet with rfl | rfl
    · rw [gs_tcp]; decide
    · rw [gs_unix]; decide
  unfold handshakeBody
  rw [goSplitN_step6 _ (by rw [gs_one]; decide),
    goSplitN_step5 _ itoa_no_pipe, goSplitN_step4 _ hnetp,
    goSplitN_step3 _ haddr, goSplitN_step2 _ (by rw [gs_grpc]; decide),
    goSplitN_one]

/-- Master lemma: parsing an emitted line reduces to the certificate step
on the six recovered fields, for any valid version/transport/address
tuple. -/
theorem parseHandshake_emit (versions : List Int) (R1 R2 : GoStr → Bool)
    (X : List Nat → Bool) (v : Int) (net addr cert : GoStr)
    (hv : v ∈ versions)
    (hnet : (net = gs "tcp" ∧ R1 addr = true) ∨ (net = gs "unix" ∧ R2 addr = true))
    (haddrP : '|' ∉ addr) (haddrN : '\n' ∉ addr)
    (hcertP : '|' ∉ cert) (hcertN : '\n' ∉ cert)
    (hlast : ∀ c ∈ cert.getLast?, isGoSpace c = false) :
    parseHandshake versions R1 R2 X (scanFirstLine (handshakeLine v net addr cert))
      = certStep X v net addr [cert] := by
  have hnet2 : net = gs "tcp" ∨ net = gs "unix" := hnet.imp And.left And.left
  rw [scan_handshakeLine hnet2 haddrN hcertN hlast]
  unfold parseHandshake
  rw [trim_handshakeBody hlast, split_handshakeBody hnet2 haddrP hcertP]
  rcases hnet with ⟨rfl, hR⟩ | ⟨rfl, hR⟩
  · simp [goAtoi_itoa, hv, hR]
  · simp [goAtoi_itoa, hv, hR, gs_tcp, gs_unix]

/-- A character the raw base64 decoder accepts is not whitespace. -/
theorem b64Val_not_space {c : Char} (h : (b64Val c).isSome = true) :
    isGoSpace c = false := by
  by_contra hs
  have hs2 : isGoSpace c = true := by revert hs; cases isGoSpace c <;> simp
  simp [isGoSpace] at hs2
  rcases hs2 with ((((rfl | rfl) | rfl) | rfl) | rfl) | rfl <;> revert h <;> decide

theorem mem_of_getLast? {l : GoStr} {y : Char} (h : l.getLast? = some y) :
    y ∈ l := by
  rw [← List.head?_reverse] at h
  have : y ∈ l.reverse := List.mem_of_mem_head? (by rw [h]; rfl)
  exact List.mem_reverse.mp this

/-- The three rejection clauses of the parser: fewer than five fields, a
first field other than `"1"`, or a fifth field other than `"grpc"`. -/
theorem parseHandshake_fail (versions : List Int) (R1 R2 : GoStr → Bool)
    (X : List Nat → Bool) (line : GoStr) :
    ((goSplitN '|' 6 (trimSpace line)).length < 5 →
      isOkE (parseHandshake versions R1 R2 X line) = false)
  ∧ (∀ q, (goSplitN '|' 6 (trimSpace line)).head? = some q → ¬ q = gs "1" →
      isOkE (parseHandshake versions R1 R2 X line) = false)
  ∧ (∀ q, (goSplitN '|' 6 (trimSpace line)).get? 4 = some q → ¬ q = gs "grpc" →
      isOkE (parseHandshake versions R1 R2 X line) = false) := by
  unfold parseHandshake
  rcases hsp : goSplitN '|' 6 (trimSpace line) with
    _ | ⟨p0, _ | ⟨p1, _ | ⟨p2, _ | ⟨p3, _ | ⟨p4, rest⟩⟩⟩⟩⟩
  · exact ⟨fun _ => rfl, fun _ _ _ => rfl, fun _ _ _ => rfl⟩
  · exact ⟨fun _ => rfl, fun q hq hne => by
      simp at hq; subst hq; rfl, fun _ _ _ => rfl⟩
  · exact ⟨fun _ => rfl, fun q hq hne => by
      simp at hq; subst hq; rfl, fun _ _ _ => rfl⟩
  · exact ⟨fun _ => rfl, fun q hq hne => by
      simp at hq; subst hq; rfl, fun _ _ _ => rfl⟩
  · exact ⟨fun _ => rfl, fun q hq hne => by
      simp at hq; subst hq; rfl, fun _ _ _ => rfl⟩
  · refine ⟨fun h => ?_, fun q hq hne => ?_, fun q hq hne => ?_⟩
    · simp only [List.length_cons] at h; omega
    · simp at hq
      subst hq
      simp [isOkE, hne]
    · simp at hq
      subst hq
      by_cases hp0 : p0 = gs "1"
      · simp [isOkE, hp0, hne]
      · simp [isOkE, hp0]

/-- C1.  Handshake round-trip: for every valid tuple (a protocol version in
the client version map, a transport in tcp/unix whose resolver accepts the
address, and an optional certificate field that is either absent or a
raw-base64-decodable string longer than 50 characters accepted by the X.509
parser), the line `Serve` emits parses back, in `New`, to exactly that
tuple; any line with fewer than five pipe-separated fields is rejected, as
is any line whose first field is not `"1"` or whose fifth field is not
`"grpc"`. -/
theorem handshake_round_trip
    (versions : List Int) (R1 R2 : GoStr → Bool) (X : List Nat → Bool)
    (v : Int) (net addr : GoStr) (cert : Option GoStr)
    (hv : v ∈ versions)
    (hnet : (net = gs "tcp" ∧ R1 addr = true) ∨ (net = gs "unix" ∧ R2 addr = true))
    (haddrP : '|' ∉ addr) (haddrN : '\n' ∉ addr)
    (hcert : ∀ s ∈ cert, 50 < s.length ∧
      ∃ bs, rawB64Decode s = some bs ∧ X bs = true) :
    parseHandshake versions R1 R2 X
        (scanFirstLine (handshakeLine v net addr (cert.getD []))) =
      .ok ⟨v, net, addr, cert⟩
    ∧ ∀ line : GoStr,
        ((goSplitN '|' 6 (trimSpace line)).length < 5 →
          isOkE (parseHandshake versions R1 R2 X line) = false)
      ∧ (∀ q, (goSplitN '|' 6 (trimSpace line)).head? = some q → ¬ q = gs "1" →
          isOkE (parseHandshake versions R1 R2 X line) = false)
      ∧ (∀ q, (goSplitN '|' 6 (trimSpace line)).get? 4 = some q →
          ¬ q = gs "grpc" →
          isOkE (parseHandshake versions R1 R2 X line) = false) := by
  constructor
  · cases cert with
    | none =>
      rw [Option.getD_none,
        parseHandshake_emit versions R1 R2 X v net addr [] hv hnet haddrP haddrN
        (by simp) (by simp) (by simp)]
      simp [certStep]
    | some c =>
      obtain ⟨hlen, bs, hdec, hX⟩ := hcert c rfl
      have hchars := rawB64Decode_chars hdec
      have hP : '|' ∉ c := fun hm => by
        have := hchars _ hm; revert this; decide
      have hN : '\n' ∉ c := fun hm => by
        have := hchars _ hm; revert this; decide
      have hL : ∀ ch ∈ c.getLast?, isGoSpace ch = false := by
        intro ch hch
        have hmem : ch ∈ c := mem_of_getLast? (Option.mem_def.mp hch)
        exact b64Val_not_space (hchars ch hmem)
      rw [Option.getD_some,
        parseHandshake_emit versions R1 R2 X v net addr c hv hnet haddrP haddrN
          hP hN hL]
      simp [certStep, hlen, hdec, hX]
  · intro line
    exact parseHandshake_fail versions R1 R2 X line

/-- Closed witness for `handshake_round_trip`: protocol version 2 over TCP
at `127.0.0.1:33` with a 64-character certificate field. -/
theorem handshake_round_trip_witness :
    parseHandshake [2] (fun s => decide (s = gs "127.0.0.1:33")) (fun _ => false)
        (fun _ => true)
        (scanFirstLine (handshakeLine 2 (gs "tcp") (gs "127.0.0.1:33")
          ((some (List.replicate 64 'A')).getD []))) =
      .ok ⟨2, gs "tcp", gs "127.0.0.1:33", some (List.replicate 64 'A')⟩ :=
  (handshake_round_trip [2] (fun s => decide (s = gs "127.0.0.1:33"))
    (fun _ => false) (fun _ => true) 2 (gs "tcp") (gs "127.0.0.1:33")
    (some (List.replicate 64 'A')) (by decide)
    (Or.inl ⟨rfl, by decide⟩) (by decide) (by decide)
    (by
      intro s hs
      simp at hs
      subst hs
      exact ⟨by decide, List.replicate 48 0, by decide, rfl⟩)).1

/-- C3 counterexample: a sixth field of 64 characters that is valid
*padded* standard base64 (`"AAA…A="`).  The claim says the client tries
padded base64 first and so accepts it; the code (plugin.go, `New`) decodes
with `base64.RawStdEncoding` only, so parsing fails. -/
theorem cert_decode_padded_first_counterexample :
    50 < (List.replicate 63 'A' ++ ['=']).length
    ∧ (stdB64Decode (List.replicate 63 'A' ++ ['='])).isSome = true
    ∧ rawB64Decode (List.replicate 63 'A' ++ ['=']) = none
    ∧ isOkE (parseHandshake [2] (fun _ => true) (fun _ => true) (fun _ => true)
        (gs "1|2|tcp|127.0.0.1:1|grpc|" ++ (List.replicate 63 'A' ++ ['=']))) =
      false :=
  ⟨by decide, by decide, by decide, by decide⟩

/-- C3 (amended): the sixth field, when longer than 50 characters, is
decoded with unpadded `RawStdEncoding` *only* — standard padded base64 is
never attempted — and must then parse as X.509; a field of at most 50
characters is ignored and no certificate is pinned. -/
theorem cert_decode_unpadded_only
    (versions : List Int) (R1 R2 : GoStr → Bool) (X : List Nat → Bool)
    (v : Int) (net addr cert : GoStr)
    (hv : v ∈ versions)
    (hnet : (net = gs "tcp" ∧ R1 addr = true) ∨ (net = gs "unix" ∧ R2 addr = true))
    (haddrP : '|' ∉ addr) (haddrN : '\n' ∉ addr)
    (hcertP : '|' ∉ cert) (hcertN : '\n' ∉ cert)
    (hlast : ∀ c ∈ cert.getLast?, isGoSpace c = false) :
    parseHandshake versions R1 R2 X
        (scanFirstLine (handshakeLine v net addr cert)) =
      if 50 < cert.length then
        match rawB64Decode cert with
        | none => .error (gs "failed to parse plugin server's temporary certificate")
        | some bytes =>
          if X bytes then .ok ⟨v, net, addr, some cert⟩
          else .error (gs "failed to parse plugin server's temporary certificate")
      else .ok ⟨v, net, addr, none⟩ := by
  rw [parseHandshake_emit versions R1 R2 X v net addr cert hv hnet haddrP haddrN
    hcertP hcertN hlast]
  rfl

/-- Closed witness for `cert_decode_unpadded_only`: the 64-character padded
field is rejected end to end. -/
theorem cert_decode_unpadded_only_witness :
    parseHandshake [2] (fun _ => true) (fun _ => true) (fun _ => true)
        (scanFirstLine (handshakeLine 2 (gs "tcp") (gs "127.0.0.1:1")
          (List.replicate 63 'A' ++ ['=']))) =
      .error (gs "failed to parse plugin server's temporary certificate") := by
  rw [cert_decode_unpadded_only [2] (fun _ => true) (fun _ => true) (fun _ => true)
    2 (gs "tcp") (gs "127.0.0.1:1") (List.replicate 63 'A' ++ ['='])
    (by decide) (Or.inl ⟨rfl, rfl⟩) (by decide) (by decide) (by decide) (by decide)
    (by decide)]
  rfl

/-! ### Version negotiation (`negotiateServerProtoVersion`, server.go)

The tracer is a record of optional callbacks; whether the two relevant
slots are set is passed as the booleans `hasInvalidCb` and `hasVNFCb`, and
the calls the code makes to them are recorded as events. -/

inductive NegEvent
  | invalidVersion (s : GoStr)
  | negotiationFailed (vs : List Int)
deriving DecidableEq, Repr

/-- The version-string parsing loop of `negotiateServerProtoVersion`
(server.go lines 244-256).  NOTE: this embeds the code as written: when
`strconv.Atoi` fails and the `InvalidClientHandshakeVersion` slot is nil,
the `continue` inside the nil-check is skipped and the zero value returned
by `Atoi` is appended to the candidate list. -/
def parseClientVersions (hasInvalidCb : Bool) : List GoStr → List Int × List NegEvent
  | [] => ([], [])
  | s :: rest =>
    let p := parseClientVersions hasInvalidCb rest
    match goAtoi s with
    | some v => (v :: p.1, p.2)
    | none =>
      if hasInvalidCb then (p.1, .invalidVersion s :: p.2)
      else (0 :: p.1, p.2)

/-- `sort.Sort(sort.Reverse(sort.IntSlice(clientVersions)))`: descending
order. -/
def sortDescInt (l : List Int) : List Int :=
  (List.insertionSort (· ≤ ·) l).reverse

/-- Model of `negotiateServerProtoVersion` (server.go lines 232-274).  The
`ServerVersion` values of the map are irrelevant to negotiation, so the map
enters as its key list; the result is the chosen version (`none` when the
code returns `0, nil`). -/
def negotiateServerProtoVersion (envPPV : GoStr) (hasInvalidCb hasVNFCb : Bool)
    (protoVersions : List Int) : Option Int × List NegEvent :=
  if envPPV = [] then (none, if hasInvalidCb then [.invalidVersion []] else [])
  else
    let p := parseClientVersions hasInvalidCb (goSplit ',' envPPV)
    match (sortDescInt p.1).find? (fun v => decide (v ∈ protoVersions)) with
    | some v => (some v, p.2)
    | none => (none, p.2 ++ if hasVNFCb then [.negotiationFailed p.1] else [])

/-- `strings.Join(versionStrings, ",")` as used by `New` (plugin.go) to
build `PLUGIN_PROTOCOL_VERSIONS`. -/
def joinComma : List GoStr → GoStr
  | [] => []
  | [x] => x
  | x :: rest => x ++ ',' :: joinComma rest

/-- C5 (code bug): with the `InvalidClientHandshakeVersion` tracer slot
unset, a malformed entry is *not* skipped: the zero value from the failed
`Atoi` joins the candidate set, and a server map containing key 0 then
negotiates version 0 from `PLUGIN_PROTOCOL_VERSIONS="borked"`.  With the
slot set, the same input is reported and correctly skipped, so negotiation
fails. -/
theorem malformed_version_zero_candidate :
    negotiateServerProtoVersion (gs "borked") false false [0] = (some 0, [])
    ∧ negotiateServerProtoVersion (gs "borked") true true [0] =
        (none, [.invalidVersion (gs "borked"), .negotiationFailed []]) := by
  constructor <;> rfl

theorem itoa_no_comma {v : Int} : ',' ∉ itoa v := fun hm => by
  have := itoa_chars _ hm
  revert this; decide

theorem itoa_ne_nil {v : Int} : itoa v ≠ [] := by
  unfold itoa
  by_cases hv : v < 0
  · simp [hv]
  · rw [if_neg hv]
    unfold natToDec
    by_cases h0 : v.toNat = 0
    · simp [h0]
    · rw [if_neg h0]
      exact natDecAux_ne_nil (Nat.le_refl _) h0

theorem goSplitAux_joinComma :
    ∀ (l : List GoStr), l ≠ [] → (∀ x ∈ l, ',' ∉ x) →
      ∀ fuel, (joinComma l).length ≤ fuel →
        goSplitAux ',' fuel (joinComma l) = l
  | [], h, _, _, _ => absurd rfl h
  | [x], _, hx, fuel, _ => by
    have hx2 : ',' ∉ x := hx x (by simp)
    cases fuel with
    | zero => rfl
    | succ fuel =>
      show goSplitAux ',' (fuel + 1) x = [x]
      simp [goSplitAux, breakAtFirst_not_mem hx2]
  | x :: y :: rest, _, hx, fuel, hf => by
    have hx2 : ',' ∉ x := hx x (by simp)
    have hjc : joinComma (x :: y :: rest) = x ++ ',' :: joinComma (y :: rest) := rfl
    cases fuel with
    | zero =>
      exfalso
      rw [hjc] at hf
      simp [List.length_append] at hf
    | succ fuel =>
      rw [hjc] at hf ⊢
      simp only [goSplitAux, breakAtFirst_append _ hx2]
      congr 1
      apply goSplitAux_joinComma (y :: rest) (by simp)
        (fun z hz => hx z (List.mem_cons_of_mem _ hz)) fuel
      rw [List.length_append] at hf
      simp only [List.length_cons] at hf
      omega

theorem goSplit_joinComma (l : List GoStr) (h : l ≠ [])
    (hx : ∀ x ∈ l, ',' ∉ x) : goSplit ',' (joinComma l) = l :=
  goSplitAux_joinComma l h hx _ (Nat.le_refl _)

theorem parseClientVersions_itoa (hasCb : Bool) :
    ∀ (C : List Int), parseClientVersions hasCb (C.map itoa) = (C, [])
  | [] => rfl
  | v :: C => by
    simp [parseClientVersions, goAtoi_itoa, parseClientVersions_itoa hasCb C]

/-- The first hit of `find?` in a descending-sorted list is the maximum of
the hits. -/
theorem find?_pairwise_max :
    ∀ {l : List Int} {p : Int → Bool}, List.Pairwise (fun a b => b ≤ a) l →
      ∀ {x : Int}, l.find? p = some x →
        p x = true ∧ x ∈ l ∧ ∀ y ∈ l, p y = true → y ≤ x := by
  intro l
  induction l with
  | nil => intro p _ x hx; simp at hx
  | cons a t ih =>
    intro p hp x hx
    have ha := List.pairwise_cons.mp hp
    by_cases hpa : p a = true
    · rw [List.find?_cons_of_pos _ hpa] at hx
      injection hx with hx
      subst hx
      refine ⟨hpa, by simp, ?_⟩
      intro y hy _
      rcases List.mem_cons.mp hy with rfl | hy
      · exact le_refl y
      · exact ha.1 y hy
    · rw [List.find?_cons_of_neg _ hpa] at hx
      obtain ⟨hpx, hmem, hmax⟩ := ih ha.2 hx
      refine ⟨hpx, List.mem_cons_of_mem _ hmem, ?_⟩
      intro y hy hpy
      rcases List.mem_cons.mp hy with rfl | hy
      · exact absurd hpy hpa
      · exact hmax y hy hpy

theorem sortDescInt_perm (l : List Int) : (sortDescInt l).Perm l :=
  (List.reverse_perm _).trans (List.perm_insertionSort _ l)

theorem sortDescInt_pairwise (l : List Int) :
    List.Pairwise (fun a b => b ≤ a) (sortDescInt l) := by
  unfold sortDescInt
  rw [List.pairwise_reverse]
  exact List.sorted_insertionSort _ l

/-- Core correctness of version negotiation on a well-formed
`PLUGIN_PROTOCOL_VERSIONS` value built (as `New` builds it) by joining the
decimal client versions `C` with commas: the result is the maximum of the
intersection with the server's key set, and `none` exactly when the
intersection is empty. -/
theorem negotiate_correct (C S : List Int) (hasCb hasVNF : Bool) :
    ((C.filter fun v => decide (v ∈ S)) ≠ [] →
      ∃ v, (negotiateServerProtoVersion (joinComma (C.map itoa)) hasCb hasVNF S).1
          = some v ∧ v ∈ C ∧ v ∈ S ∧ ∀ w ∈ C, w ∈ S → w ≤ v)
    ∧ ((C.filter fun v => decide (v ∈ S)) = [] →
      (negotiateServerProtoVersion (joinComma (C.map itoa)) hasCb hasVNF S).1
        = none) := by
  cases C with
  | nil =>
    constructor
    · intro h; simp at h
    · intro _; rfl
  | cons c0 C0 =>
    have hne : joinComma ((c0 :: C0).map itoa) ≠ [] := by
      cases hm : C0.map itoa with
      | nil => simpa [joinComma, hm] using itoa_ne_nil
      | cons z zs => simp [joinComma, hm]
    have hsplit : goSplit ',' (joinComma ((c0 :: C0).map itoa)) =
        (c0 :: C0).map itoa := by
      apply goSplit_joinComma _ (by simp)
      intro x hx
      simp only [List.mem_map] at hx
      obtain ⟨v, _, rfl⟩ := hx
      exact itoa_no_comma
    have hparse := parseClientVersions_itoa hasCb (c0 :: C0)
    constructor
    · intro hf
      have hex : ∃ x, x ∈ sortDescInt (c0 :: C0) ∧ decide (x ∈ S) = true := by
        rcases List.exists_mem_of_ne_nil _ hf with ⟨x, hx⟩
        rw [List.mem_filter] at hx
        exact ⟨x, ((sortDescInt_perm _).mem_iff).mpr hx.1, hx.2⟩
      have hiss : ((sortDescInt (c0 :: C0)).find?
          (fun v => decide (v ∈ S))).isSome := List.find?_isSome.mpr hex
      obtain ⟨y, hy⟩ := Option.isSome_iff_exists.mp hiss
      obtain ⟨py, ymem, ymax⟩ :=
        find?_pairwise_max (sortDescInt_pairwise (c0 :: C0)) hy
      refine ⟨y, ?_, (sortDescInt_perm _).mem_iff.mp ymem, of_decide_eq_true py, ?_⟩
      · simp only [negotiateServerProtoVersion, if_neg hne, hsplit, hparse, hy]
      · intro w hw hwS
        exact ymax w ((sortDescInt_perm _).mem_iff.mpr hw) (decide_eq_true hwS)
    · intro hf
      have hnone : (sortDescInt (c0 :: C0)).find? (fun v => decide (v ∈ S))
          = none := by
        rw [List.find?_eq_none]
        intro x hx
        exact List.filter_eq_nil_iff.mp hf x ((sortDescInt_perm _).mem_iff.mp hx)
      simp only [negotiateServerProtoVersion, if_neg hne, hsplit, hparse, hnone]

/-! ### The `Serve` lifecycle (server.go)

`Serve` is embedded as a function from the environment, the configuration,
and a `ServeWorld` of operating-system outcomes (listener binds, pipe
creation, certificate generation, the tracer's optional slots, the cause
of context termination) to a result, an effect trace, and the final
process-global stdout/stderr assignment.  Go `defer` semantics — the
stdio restore and `listener.Close` run on *every* exit, including panics —
are embedded by having each wrapper append its deferred effects to
whatever its body produced, panics included. -/

/-- The process-global `os.Stdout` / `os.Stderr` values (file handles,
abstracted to numbers). -/
structure OsState where
  stdout : Nat
  stderr : Nat
deriving DecidableEq, Repr

inductive ServeEffect
  | negotiate
  | tryUnix
  | tryTcp
  | listen (network addr : GoStr)
  | redirectStdio
  | restoreStdio
  | closeListener
  | registerShutdownService
  | installSignalHandler
  | writeHandshake (fd : Nat) (line : GoStr)
  | serveRPC
deriving DecidableEq, Repr

/-- A bound listener: its `Addr().Network()` and `Addr().String()`. -/
structure Listener where
  network : GoStr
  addr : GoStr
deriving DecidableEq, Repr

/-- `HandshakeConfig` (handshake.go). -/
structure HandshakeConfig where
  cookieKey : GoStr
  cookieValue : GoStr
deriving DecidableEq, Repr

/-- `ServerConfig` (server.go), with `ProtoVersions` as its key list and
`TLSConfig` as the presence of a custom function. -/
structure ServerConfigM where
  handshake : HandshakeConfig
  protoVersions : List Int
  hasTLSConfigFn : Bool
  noSignalHandlers : Bool
deriving DecidableEq, Repr

/-- `haveHandshakeCookie` (handshake.go): the configured variable must
equal the configured value.  (Its panic on an empty key is unreachable
from `Serve`, which validates the config first.) -/
def haveHandshakeCookie (env : Env) (cfg : HandshakeConfig) : Bool :=
  decide (getenv env cfg.cookieKey = cfg.cookieValue)

/-- `clientSmellsLikeGoPlugin` (server.go): `PLUGIN_TRANSPORTS` unset. -/
def clientSmellsLikeGoPlugin (env : Env) : Bool :=
  decide (getenv env (gs "PLUGIN_TRANSPORTS") = [])

/-- Outcome of a caller-supplied `ServerConfig.TLSConfig` function. -/
inductive TLSFnOut | forceNoTLS | otherErr | nilConfig | someConfig
deriving DecidableEq, Repr

/-- Outcome of the caller's `RegisterServer` inside `serverGRPC.Init`. -/
inductive Outcome3 | ok | err | panicked
deriving DecidableEq, Repr

/-- What eventually completes the internal `chiCtx`: the internal cancel
function (fired by the shutdown RPC or by `serverGRPC.Serve` returning),
the caller's context being cancelled, or the caller's deadline passing. -/
inductive TermCause | cancelFunc | shutdownRPC | callerCancel | gRPCServeExit | callerDeadline
deriving DecidableEq, Repr

/-- `context.Context.Err()` values for a done context. -/
inductive CtxErr | canceled | deadlineExceeded
deriving DecidableEq, Repr

/-- `chiCtx.Err()` for each termination cause: `context.WithCancel`
yields `Canceled` for every cancellation, and inherits
`DeadlineExceeded` only from a parent deadline. -/
def chiCtxErr : TermCause → CtxErr
  | .callerDeadline => .deadlineExceeded
  | _ => .canceled

/-- All operating-system and tracer nondeterminism `Serve` encounters. -/
structure ServeWorld where
  unixListen : Option Listener
  tcpListen : Option Listener
  tlsFnOut : TLSFnOut
  clientCertPEMOk : Bool
  genCertDER : Option (List Nat)
  stdoutPipeOk : Bool
  stderrPipeOk : Bool
  stdoutWFd : Nat
  stderrWFd : Nat
  initOut : Outcome3
  writeOk : Bool
  termCause : TermCause
  hasInvalidCb : Bool
  hasVNFCb : Bool
deriving DecidableEq, Repr

/-- What `serverTLSConfig` (server_listener.go) returns: whether a TLS
configuration exists, and the auto-generated certificate (DER) when the
automatic protocol ran. -/
structure TLSInfo where
  hasTLS : Bool
  autoCertDER : Option (List Nat)
deriving DecidableEq, Repr

/-- Model of `serverTLSConfig` (server_listener.go lines 18-65). -/
def serverTLSConfig (env : Env) (w : ServeWorld) (hasFn : Bool) :
    Except Unit TLSInfo :=
  if hasFn then
    match w.tlsFnOut with
    | .forceNoTLS => .ok ⟨false, none⟩
    | .otherErr => .error ()
    | .nilConfig => .error ()
    | .someConfig => .ok ⟨true, none⟩
  else
    if getenv env (gs "PLUGIN_CLIENT_CERT") = [] then .error ()
    else if ¬ w.clientCertPEMOk then .error ()
    else
      match w.genCertDER with
      | none => .error ()
      | some der => .ok ⟨true, some der⟩

/-- The transport loop of `serverListen` (server_listener.go lines 72-86):
`unix` and `tcp` entries are attempted (outcomes `uRes`/`tRes`); unknown
entries are skipped by the `switch`. -/
def serverListenLoop (uRes tRes : Option Listener) :
    List GoStr → Except GoStr Listener × List ServeEffect
  | [] => (.error (gs "unable to negotiate a transport protocol"), [])
  | t :: rest =>
    if t = gs "unix" then
      match uRes with
      | some l => (.ok l, [.tryUnix])
      | none =>
        let p := serverListenLoop uRes tRes rest
        (p.1, .tryUnix :: p.2)
    else if t = gs "tcp" then
      match tRes with
      | some l => (.ok l, [.tryTcp])
      | none =>
        let p := serverListenLoop uRes tRes rest
        (p.1, .tryTcp :: p.2)
    else serverListenLoop uRes tRes rest

/-- Model of `serverListen` (server_listener.go lines 66-90). -/
def serverListen (env : Env) (uRes tRes : Option Listener) :
    Except GoStr Listener × List ServeEffect :=
  serverListenLoop uRes tRes (goSplit ','
    (if getenv env (gs "PLUGIN_TRANSPORTS") = [] then gs "unix,tcp"
     else getenv env (gs "PLUGIN_TRANSPORTS")))

inductive ServeResult
  | ok
  | errConfig
  | errNotChild
  | errNegotiation
  | errListen
  | errTLS
  | errPipe
  | errInit
  | errHandshakeWrite
  | errCtx (e : CtxErr)
  | panicked
deriving DecidableEq, Repr

/-- Server.go lines 105-171: everything after the stdio redirect — gRPC
server `Init` (registering the go-plugin shutdown service exactly when the
client smells like go-plugin), the signal handler, the handshake write on
the saved pre-redirect stdout, the serve goroutine, and the wait on
`chiCtx`, returning `nil` for `context.Canceled` and the context error
otherwise. -/
def serveAfterRedirect (env : Env) (cfg : ServerConfigM) (w : ServeWorld)
    (v : Int) (l : Listener) (handshakeOut : Nat) (autoCertStr : GoStr) :
    ServeResult × List ServeEffect :=
  let initEffs :=
    if clientSmellsLikeGoPlugin env then [ServeEffect.registerShutdownService]
    else []
  match w.initOut with
  | .panicked => (.panicked, initEffs)
  | .err => (.errInit, initEffs)
  | .ok =>
    let sigEffs :=
      if cfg.noSignalHandlers then [] else [ServeEffect.installSignalHandler]
    if w.writeOk = false then (.errHandshakeWrite, initEffs ++ sigEffs)
    else
      let effs := initEffs ++ sigEffs ++
        [.writeHandshake handshakeOut (handshakeLine v l.network l.addr autoCertStr),
          .serveRPC]
      match chiCtxErr w.termCause with
      | .canceled => (.ok, effs)
      | e => (.errCtx e, effs)

/-- Server.go lines 63-103 plus the deferred restore: TLS setup, the
base64 encoding of the auto certificate (unpadded when the client smells
like go-plugin, padded otherwise), pipe creation, the redirect of
`os.Stdout`/`os.Stderr` to the pipe write ends, the body, and the deferred
function that restores the saved originals on every exit. -/
def serveAfterListen (env : Env) (cfg : ServerConfigM) (w : ServeWorld)
    (v : Int) (l : Listener) (os : OsState) :
    ServeResult × List ServeEffect × OsState :=
  match serverTLSConfig env w cfg.hasTLSConfigFn with
  | .error _ => (.errTLS, [], os)
  | .ok tinfo =>
    let autoCertStr :=
      match tinfo.autoCertDER with
      | none => []
      | some der =>
        if clientSmellsLikeGoPlugin env then rawB64Encode der
        else stdB64Encode der
    if w.stdoutPipeOk = false then (.errPipe, [], os)
    else if w.stderrPipeOk = false then (.errPipe, [], os)
    else
      -- handshakeOut := os.Stdout, saved before the redirect; os.Stdout
      -- and os.Stderr then point at the pipe write ends until the deferred
      -- restore puts the saved originals back.
      let p := serveAfterRedirect env cfg w v l os.stdout autoCertStr
      (p.1, .redirectStdio :: p.2 ++ [.restoreStdio], ⟨os.stdout, os.stderr⟩)

/-- Model of `Serve` (server.go lines 43-172): config validation, the
cookie gate, version negotiation, the listener (with its deferred close),
and the rest of the lifecycle. -/
def Serve (env : Env) (cfg : ServerConfigM) (w : ServeWorld) (os : OsState) :
    ServeResult × List ServeEffect × OsState :=
  if cfg.handshake.cookieKey = [] ∨ cfg.handshake.cookieValue = [] then
    (.errConfig, [], os)
  else if haveHandshakeCookie env cfg.handshake = false then
    (.errNotChild, [], os)
  else
    match (negotiateServerProtoVersion
        (getenv env (gs "PLUGIN_PROTOCOL_VERSIONS"))
        w.hasInvalidCb w.hasVNFCb cfg.protoVersions).1 with
    | none => (.errNegotiation, [.negotiate], os)
    | some v =>
      match serverListen env w.unixListen w.tcpListen with
      | (.error _, atts) => (.errListen, .negotiate :: atts, os)
      | (.ok l, atts) =>
        let p := serveAfterListen env cfg w v l os
        (p.1, .negotiate :: atts ++ [.listen l.network l.addr] ++ p.2.1
          ++ [.closeListener], p.2.2)

/-! ### The go-plugin shutdown shim (internal/gopluginshim) -/

/-- `controllerServer`: its `close` field holds the cancel function (an
opaque function value, modelled by a number). -/
structure GoPluginControllerServer where
  close : Option Nat
deriving DecidableEq, Repr

/-- `RegisterGoPluginShutdown(server, close)`: the source constructs
`&controllerServer{}` — the `close` argument is dropped, so the field
stays nil. -/
def RegisterGoPluginShutdown (closeFn : Nat) : GoPluginControllerServer :=
  { close := none }

inductive ShutdownOutcome
  | nilFuncPanic
  | cancelled (fn : Nat)
deriving DecidableEq, Repr

/-- The `Shutdown` RPC of the shim controller calls `c.close()`; calling a
nil Go function value panics. -/
def controllerShutdown (c : GoPluginControllerServer) : ShutdownOutcome :=
  match c.close with
  | none => .nilFuncPanic
  | some f => .cancelled f

/-- C6 (code bug).  The shutdown service is registered exactly when the
client looks like go-plugin (`PLUGIN_TRANSPORTS` unset), but invoking its
`Shutdown` RPC dereferences a nil function — `RegisterGoPluginShutdown`
drops its `close` argument — instead of calling the lifecycle's cancel. -/
theorem shutdown_nil_close :
    controllerShutdown (RegisterGoPluginShutdown 7) = .nilFuncPanic
    ∧ (∀ (env : Env) (cfg : ServerConfigM) (w : ServeWorld) (v : Int)
        (l : Listener) (h : Nat) (a : GoStr),
        ServeEffect.registerShutdownService ∈ (serveAfterRedirect env cfg w v l h a).2
          ↔ clientSmellsLikeGoPlugin env = true) := by
  refine ⟨rfl, ?_⟩
  intro env cfg w v l h a
  unfold serveAfterRedirect
  by_cases hsm : clientSmellsLikeGoPlugin env = true <;>
    rcases w.initOut <;>
    by_cases hwr : w.writeOk = false <;>
    by_cases hns : cfg.noSignalHandlers = true <;>
    rcases htc : chiCtxErr w.termCause <;>
    simp_all

/-- C4.  With a validly configured cookie and a mismatching environment,
`Serve` returns `NotChildProcessError` with an empty effect trace: in
particular no listener was bound and version negotiation never ran. -/
theorem cookie_gate (env : Env) (cfg : ServerConfigM) (w : ServeWorld)
    (os : OsState) (hk : cfg.handshake.cookieKey ≠ [])
    (hv : cfg.handshake.cookieValue ≠ [])
    (hmm : getenv env cfg.handshake.cookieKey ≠ cfg.handshake.cookieValue) :
    Serve env cfg w os = (.errNotChild, [], os) := by
  unfold Serve
  rw [if_neg (not_or.mpr ⟨hk, hv⟩),
    if_pos (by unfold haveHandshakeCookie; exact decide_eq_false hmm)]

/-- Closed witness for `cookie_gate`: an empty environment. -/
theorem cookie_gate_witness :
    Serve [] ⟨⟨gs "COOKIE", gs "V"⟩, [1], true, false⟩
      ⟨none, none, .someConfig, true, none, true, true, 10, 11, .ok, true,
        .callerCancel, false, false⟩ ⟨1, 2⟩ =
      (.errNotChild, [], ⟨1, 2⟩) :=
  cookie_gate _ _ _ _ (by decide) (by decide) (by decide)

/-- C2.  Version negotiation picks `max(C ∩ S)`: on a well-formed
`PLUGIN_PROTOCOL_VERSIONS` built from the client list `C`, the server
negotiates a version `v ∈ C ∩ S` that bounds every element of `C ∩ S`,
and returns none exactly when the intersection is empty; in that case
`Serve` fails with only the negotiation effect — no transport attempt and
no listener. -/
theorem version_negotiation_max (C S : List Int) (hasCb hasVNF : Bool) :
    (((C.filter fun v => decide (v ∈ S)) ≠ [] →
      ∃ v, (negotiateServerProtoVersion (joinComma (C.map itoa)) hasCb hasVNF S).1
          = some v ∧ v ∈ C ∧ v ∈ S ∧ ∀ w ∈ C, w ∈ S → w ≤ v)
    ∧ ((C.filter fun v => decide (v ∈ S)) = [] →
      (negotiateServerProtoVersion (joinComma (C.map itoa)) hasCb hasVNF S).1
        = none))
    ∧ ∀ (env : Env) (cfg : ServerConfigM) (w : ServeWorld) (os : OsState),
        cfg.handshake.cookieKey ≠ [] → cfg.handshake.cookieValue ≠ [] →
        getenv env cfg.handshake.cookieKey = cfg.handshake.cookieValue →
        getenv env (gs "PLUGIN_PROTOCOL_VERSIONS") = joinComma (C.map itoa) →
        cfg.protoVersions = S → w.hasInvalidCb = hasCb → w.hasVNFCb = hasVNF →
        (C.filter fun v => decide (v ∈ S)) = [] →
        Serve env cfg w os = (.errNegotiation, [.negotiate], os) := by
  refine ⟨negotiate_correct C S hasCb hasVNF, ?_⟩
  intro env cfg w os hk hv hcook henv hS hcb hvnf hempty
  unfold Serve
  rw [if_neg (not_or.mpr ⟨hk, hv⟩),
    if_neg (by simp [haveHandshakeCookie, hcook]),
    henv, hS, hcb, hvnf,
    (negotiate_correct C S hasCb hasVNF).2 hempty]

/-- Closed witness for `version_negotiation_max`: client `{1,3}` against
server `{3,5}` negotiates 3; client `{1}` against server `{2}` makes
`Serve` fail before any transport attempt. -/
theorem version_negotiation_max_witness :
    (∃ v, (negotiateServerProtoVersion (joinComma ([(1 : Int), 3].map itoa))
        false false [3, 5]).1 = some v ∧ v ∈ [(1 : Int), 3] ∧ v ∈ [(3 : Int), 5]
        ∧ ∀ w ∈ [(1 : Int), 3], w ∈ [(3 : Int), 5] → w ≤ v)
    ∧ Serve [(gs "C", gs "V"),
        (gs "PLUGIN_PROTOCOL_VERSIONS", joinComma ([(1 : Int)].map itoa))]
        ⟨⟨gs "C", gs "V"⟩, [2], true, false⟩
        ⟨none, none, .someConfig, true, none, true, true, 10, 11, .ok, true,
          .callerCancel, false, false⟩ ⟨1, 2⟩ =
      (.errNegotiation, [.negotiate], ⟨1, 2⟩) :=
  ⟨(version_negotiation_max [1, 3] [3, 5] false false).1.1 (by decide),
   (version_negotiation_max [1] [2] false false).2 _ _ _ _
     (by decide) (by decide) (by decide) (by decide) rfl rfl rfl (by decide)⟩

/-- C7.  When every setup step succeeds, `Serve` blocks on `chiCtx` and
then returns nil for a plain cancellation (the internal cancel function —
fired by the shutdown RPC or the serve goroutine — or a caller cancel),
and returns the context error for any other termination, i.e. a caller
deadline. -/
theorem serve_exit_value (env : Env) (cfg : ServerConfigM) (w : ServeWorld)
    (os : OsState) (v : Int) (l : Listener) (atts : List ServeEffect)
    (tinfo : TLSInfo)
    (hk : cfg.handshake.cookieKey ≠ []) (hval : cfg.handshake.cookieValue ≠ [])
    (hcook : getenv env cfg.handshake.cookieKey = cfg.handshake.cookieValue)
    (hneg : (negotiateServerProtoVersion
        (getenv env (gs "PLUGIN_PROTOCOL_VERSIONS"))
        w.hasInvalidCb w.hasVNFCb cfg.protoVersions).1 = some v)
    (hlis : serverListen env w.unixListen w.tcpListen = (.ok l, atts))
    (htls : serverTLSConfig env w cfg.hasTLSConfigFn = .ok tinfo)
    (hp1 : w.stdoutPipeOk = true) (hp2 : w.stderrPipeOk = true)
    (hinit : w.initOut = .ok) (hwr : w.writeOk = true) :
    (Serve env cfg w os).1 =
      if w.termCause = .callerDeadline then .errCtx .deadlineExceeded
      else .ok := by
  cases hterm : w.termCause <;>
    simp [Serve, serveAfterListen, serveAfterRedirect, chiCtxErr, hk, hval,
      haveHandshakeCookie, hcook, hneg, hlis, htls, hp1, hp2, hinit, hwr, hterm]

/-- Closed witness for `serve_exit_value`: a full successful setup over a
unix listener, terminated by a caller cancel, returns nil. -/
theorem serve_exit_value_witness :
    (Serve [(gs "C", gs "V"), (gs "PLUGIN_PROTOCOL_VERSIONS", gs "2")]
      ⟨⟨gs "C", gs "V"⟩, [2], true, false⟩
      ⟨some ⟨gs "unix", gs "/tmp/rpcplugin1/server.sock"⟩, none, .someConfig,
        true, none, true, true, 10, 11, .ok, true, .callerCancel, false, false⟩
      ⟨1, 2⟩).1 = .ok := by
  rw [serve_exit_value [(gs "C", gs "V"), (gs "PLUGIN_PROTOCOL_VERSIONS", gs "2")]
    ⟨⟨gs "C", gs "V"⟩, [2], true, false⟩
    ⟨some ⟨gs "unix", gs "/tmp/rpcplugin1/server.sock"⟩, none, .someConfig,
      true, none, true, true, 10, 11, .ok, true, .callerCancel, false, false⟩
    ⟨1, 2⟩ 2 ⟨gs "unix", gs "/tmp/rpcplugin1/server.sock"⟩ [.tryUnix]
    ⟨true, none⟩ (by decide) (by decide) rfl rfl rfl rfl rfl rfl rfl rfl]
  rfl

/-! ### Effect-trace lemmas for stdio restoration (C9) -/

theorem serverListenLoop_effects (uRes tRes : Option Listener) :
    ∀ (ts : List GoStr), ∀ e ∈ (serverListenLoop uRes tRes ts).2,
      e = ServeEffect.tryUnix ∨ e = ServeEffect.tryTcp := by
  intro ts
  induction ts with
  | nil => intro e he; simp [serverListenLoop] at he
  | cons t rest ih =>
    intro e he
    unfold serverListenLoop at he
    by_cases hu : t = gs "unix"
    · rw [if_pos hu] at he
      cases uRes with
      | some l => simp at he; left; exact he
      | none =>
        simp at he
        rcases he with rfl | he
        · left; rfl
        · exact ih e he
    · rw [if_neg hu] at he
      by_cases ht : t = gs "tcp"
      · rw [if_pos ht] at he
        cases tRes with
        | some l => simp at he; right; exact he
        | none =>
          simp at he
          rcases he with rfl | he
          · right; rfl
          · exact ih e he
      · rw [if_neg ht] at he
        exact ih e he

theorem serveAfterRedirect_effects (env : Env) (cfg : ServerConfigM)
    (w : ServeWorld) (v : Int) (l : Listener) (h : Nat) (a : GoStr) :
    ∀ e ∈ (serveAfterRedirect env cfg w v l h a).2,
      e = ServeEffect.registerShutdownService
      ∨ e = ServeEffect.installSignalHandler
      ∨ e = ServeEffect.writeHandshake h (handshakeLine v l.network l.addr a)
      ∨ e = ServeEffect.serveRPC := by
  intro e he
  unfold serveAfterRedirect at he
  cases hio : w.initOut <;> rw [hio] at he <;>
    by_cases hsm : clientSmellsLikeGoPlugin env = true <;>
    by_cases hwr : w.writeOk = false <;>
    by_cases hns : cfg.noSignalHandlers = true <;>
    rcases htc : chiCtxErr w.termCause <;>
    simp_all <;>
    tauto

theorem serveAfterListen_os (env : Env) (cfg : ServerConfigM) (w : ServeWorld)
    (v : Int) (l : Listener) (os : OsState) :
    (serveAfterListen env cfg w v l os).2.2 = os := by
  unfold serveAfterListen
  cases htls : serverTLSConfig env w cfg.hasTLSConfigFn with
  | error e => rfl
  | ok tinfo =>
    by_cases hp1 : w.stdoutPipeOk = false <;> by_cases hp2 : w.stderrPipeOk = false <;>
      simp [hp1, hp2]

/-- The effect trace of `serveAfterListen` is either empty (an exit before
the redirect) or the redirect, the body, and the deferred restore. -/
theorem serveAfterListen_shape (env : Env) (cfg : ServerConfigM)
    (w : ServeWorld) (v : Int) (l : Listener) (os : OsState) :
    (serveAfterListen env cfg w v l os).2.1 = []
    ∨ ∃ a, (serveAfterListen env cfg w v l os).2.1 =
        ServeEffect.redirectStdio ::
          (serveAfterRedirect env cfg w v l os.stdout a).2
          ++ [ServeEffect.restoreStdio] := by
  unfold serveAfterListen
  cases serverTLSConfig env w cfg.hasTLSConfigFn with
  | error e => left; rfl
  | ok tinfo =>
    by_cases hp1 : w.stdoutPipeOk = false
    · left
      simp only [hp1]
      rfl
    · have hp1t : w.stdoutPipeOk = true := by
        revert hp1; cases w.stdoutPipeOk <;> simp
      by_cases hp2 : w.stderrPipeOk = false
      · left
        simp only [hp1t, hp2]
        rfl
      · have hp2t : w.stderrPipeOk = true := by
          revert hp2; cases w.stderrPipeOk <;> simp
        right
        refine ⟨(match tinfo.autoCertDER with
          | none => []
          | some der =>
            if clientSmellsLikeGoPlugin env = true then rawB64Encode der
            else stdB64Encode der), ?_⟩
        simp only [hp1t, hp2t]
        rfl

theorem serveAfterListen_restore (env : Env) (cfg : ServerConfigM)
    (w : ServeWorld) (v : Int) (l : Listener) (os : OsState) :
    ServeEffect.redirectStdio ∈ (serveAfterListen env cfg w v l os).2.1 →
      ServeEffect.restoreStdio ∈ (serveAfterListen env cfg w v l os).2.1 := by
  intro hm
  rcases serveAfterListen_shape env cfg w v l os with h0 | ⟨a, hq⟩
  · rw [h0] at hm
    simp at hm
  · rw [hq]
    simp

theorem serveAfterListen_write (env : Env) (cfg : ServerConfigM)
    (w : ServeWorld) (v : Int) (l : Listener) (os : OsState) :
    ∀ fd line, ServeEffect.writeHandshake fd line ∈
        (serveAfterListen env cfg w v l os).2.1 → fd = os.stdout := by
  intro fd line hm
  rcases serveAfterListen_shape env cfg w v l os with h0 | ⟨a, hq⟩
  · rw [h0] at hm
    simp at hm
  · rw [hq] at hm
    rcases List.mem_append.mp hm with h | h
    · rcases List.mem_cons.mp h with h | h
      · exact absurd h (by simp)
      · have h4 := serveAfterRedirect_effects env cfg w v l os.stdout a _ h
        rcases h4 with h | h | h | h
        · exact absurd h (by simp)
        · exact absurd h (by simp)
        · simp only [ServeEffect.writeHandshake.injEq] at h
          exact h.1
        · exact absurd h (by simp)
    · simp at h

/-- C9.  On every path of `Serve` — success, every error return, and the
panic path through the caller's `RegisterServer` — the final
`os.Stdout`/`os.Stderr` assignment equals the initial one; whenever the
redirect happened, the deferred restore is in the trace; and every
handshake write uses the stdout handle saved before the redirect. -/
theorem stdio_restoration (env : Env) (cfg : ServerConfigM) (w : ServeWorld)
    (os : OsState) :
    (Serve env cfg w os).2.2 = os
    ∧ (ServeEffect.redirectStdio ∈ (Serve env cfg w os).2.1 →
        ServeEffect.restoreStdio ∈ (Serve env cfg w os).2.1)
    ∧ ∀ fd line, ServeEffect.writeHandshake fd line ∈ (Serve env cfg w os).2.1 →
        fd = os.stdout := by
  by_cases h1 : cfg.handshake.cookieKey = [] ∨ cfg.handshake.cookieValue = []
  · refine ⟨by simp [Serve, h1], by simp [Serve, h1], by simp [Serve, h1]⟩
  by_cases h2 : haveHandshakeCookie env cfg.handshake = false
  · refine ⟨by simp [Serve, h1, h2], by simp [Serve, h1, h2],
      by simp [Serve, h1, h2]⟩
  rcases hng : (negotiateServerProtoVersion
      (getenv env (gs "PLUGIN_PROTOCOL_VERSIONS"))
      w.hasInvalidCb w.hasVNFCb cfg.protoVersions).1 with _ | v
  · refine ⟨by simp [Serve, h1, h2, hng], ?_, ?_⟩
    · intro hm
      simp [Serve, h1, h2, hng] at hm
    · intro fd line hm
      simp [Serve, h1, h2, hng] at hm
  rcases hls : serverListen env w.unixListen w.tcpListen with ⟨res, atts⟩
  have hatts : ∀ e ∈ atts, e = ServeEffect.tryUnix ∨ e = ServeEffect.tryTcp := by
    intro e he
    have h3 : (serverListen env w.unixListen w.tcpListen).2 = atts := by
      rw [hls]
    rw [← h3] at he
    exact serverListenLoop_effects w.unixListen w.tcpListen _ e he
  rcases res with e | l
  · have heff : (Serve env cfg w os).2.1 = ServeEffect.negotiate :: atts := by
      simp [Serve, h1, h2, hng, hls]
    refine ⟨by simp [Serve, h1, h2, hng, hls], ?_, ?_⟩
    · intro hm
      rw [heff] at hm
      rcases List.mem_cons.mp hm with h | h
      · exact absurd h (by decide)
      · rcases hatts _ h with h | h <;> exact absurd h (by decide)
    · intro fd line hm
      rw [heff] at hm
      rcases List.mem_cons.mp hm with h | h
      · exact absurd h (by simp)
      · rcases hatts _ h with h | h <;> simp_all
  · have heff : (Serve env cfg w os).2.1 =
        ServeEffect.negotiate :: atts ++ [ServeEffect.listen l.network l.addr]
          ++ (serveAfterListen env cfg w v l os).2.1
          ++ [ServeEffect.closeListener] := by
      simp [Serve, h1, h2, hng, hls]
    refine ⟨?_, ?_, ?_⟩
    · simp [Serve, h1, h2, hng, hls, serveAfterListen_os]
    · intro hm
      rw [heff] at hm ⊢
      rcases List.mem_append.mp hm with h | h
      · rcases List.mem_append.mp h with h | h
        · rcases List.mem_append.mp h with h | h
          · rcases List.mem_cons.mp h with h | h
            · exact absurd h (by decide)
            · rcases hatts _ h with h | h <;> exact absurd h (by decide)
          · simp at h
        · exact List.mem_append.mpr (Or.inl (List.mem_append.mpr (Or.inr
            (serveAfterListen_restore env cfg w v l os h))))
      · simp at h
    · intro fd line hm
      rw [heff] at hm
      rcases List.mem_append.mp hm with h | h
      · rcases List.mem_append.mp h with h | h
        · rcases List.mem_append.mp h with h | h
          · rcases List.mem_cons.mp h with h | h
            · exact absurd h (by simp)
            · rcases hatts _ h with h | h <;> simp_all
          · simp at h
        · exact serveAfterListen_write env cfg w v l os fd line h
      · simp at h

/-- Closed witness for `stdio_restoration`: the successful-run world of
`serve_exit_value_witness`, where the redirect does occur and the
handshake line goes to the saved handle. -/
theorem stdio_restoration_witness :
    (Serve [(gs "C", gs "V"), (gs "PLUGIN_PROTOCOL_VERSIONS", gs "2")]
      ⟨⟨gs "C", gs "V"⟩, [2], true, false⟩
      ⟨some ⟨gs "unix", gs "/tmp/rpcplugin1/server.sock"⟩, none, .someConfig,
        true, none, true, true, 10, 11, .ok, true, .callerCancel, false, false⟩
      ⟨1, 2⟩).2.2 = ⟨1, 2⟩
    ∧ (ServeEffect.redirectStdio ∈ (Serve [(gs "C", gs "V"),
        (gs "PLUGIN_PROTOCOL_VERSIONS", gs "2")]
        ⟨⟨gs "C", gs "V"⟩, [2], true, false⟩
        ⟨some ⟨gs "unix", gs "/tmp/rpcplugin1/server.sock"⟩, none, .someConfig,
          true, none, true, true, 10, 11, .ok, true, .callerCancel, false, false⟩
        ⟨1, 2⟩).2.1 →
        ServeEffect.restoreStdio ∈ (Serve [(gs "C", gs "V"),
        (gs "PLUGIN_PROTOCOL_VERSIONS", gs "2")]
        ⟨⟨gs "C", gs "V"⟩, [2], true, false⟩
        ⟨some ⟨gs "unix", gs "/tmp/rpcplugin1/server.sock"⟩, none, .someConfig,
          true, none, true, true, 10, 11, .ok, true, .callerCancel, false, false⟩
        ⟨1, 2⟩).2.1) :=
  ⟨(stdio_restoration _ _ _ _).1, (stdio_restoration _ _ _ _).2.1⟩

/-! ### Transport selection (C8) -/

/-- Spec-side reading of the claim: the first listed transport that
succeeds, in the listed order, with unknown entries never succeeding. -/
def specFirstListedSuccess (uRes tRes : Option Listener) :
    List GoStr → Option Listener
  | [] => none
  | t :: rest =>
    match (if t = gs "unix" then uRes
           else if t = gs "tcp" then tRes else none) with
    | some l => some l
    | none => specFirstListedSuccess uRes tRes rest

/-- Spec-side reading of the claim: the attempts made, in the listed
order, stopping at the first success. -/
def specAttempts (uRes tRes : Option Listener) :
    List GoStr → List ServeEffect
  | [] => []
  | t :: rest =>
    if t = gs "unix" then
      ServeEffect.tryUnix :: (if uRes.isSome then [] else specAttempts uRes tRes rest)
    else if t = gs "tcp" then
      ServeEffect.tryTcp :: (if tRes.isSome then [] else specAttempts uRes tRes rest)
    else specAttempts uRes tRes rest

theorem serverListenLoop_spec (uRes tRes : Option Listener) :
    ∀ (ts : List GoStr),
      serverListenLoop uRes tRes ts =
        ((specFirstListedSuccess uRes tRes ts).elim
          (.error (gs "unable to negotiate a transport protocol")) .ok,
         specAttempts uRes tRes ts)
  | [] => rfl
  | t :: rest => by
    have htu : ¬ gs "tcp" = gs "unix" := by decide
    by_cases hu : t = gs "unix"
    · subst hu
      cases uRes with
      | some l => simp [serverListenLoop, specFirstListedSuccess, specAttempts]
      | none =>
        simp [serverListenLoop, specFirstListedSuccess, specAttempts,
          serverListenLoop_spec none tRes rest]
    · by_cases ht : t = gs "tcp"
      · subst ht
        cases tRes with
        | some l =>
          simp [serverListenLoop, specFirstListedSuccess, specAttempts, htu]
        | none =>
          simp [serverListenLoop, specFirstListedSuccess, specAttempts, htu,
            serverListenLoop_spec uRes none rest]
      · simp [serverListenLoop, specFirstListedSuccess, specAttempts, hu, ht,
          serverListenLoop_spec uRes tRes rest]

/-- C8.  `serverListen` reads `PLUGIN_TRANSPORTS` (defaulting to
`"unix,tcp"` when unset), attempts the listed transports in order, and
returns the listener of the first transport that succeeds; when no listed
transport succeeds it fails with exactly
`"unable to negotiate a transport protocol"`. -/
theorem transport_selection (env : Env) (uRes tRes : Option Listener) :
    serverListen env uRes tRes =
      ((specFirstListedSuccess uRes tRes (goSplit ','
          (if getenv env (gs "PLUGIN_TRANSPORTS") = [] then gs "unix,tcp"
           else getenv env (gs "PLUGIN_TRANSPORTS")))).elim
        (.error (gs "unable to negotiate a transport protocol")) .ok,
       specAttempts uRes tRes (goSplit ','
          (if getenv env (gs "PLUGIN_TRANSPORTS") = [] then gs "unix,tcp"
           else getenv env (gs "PLUGIN_TRANSPORTS")))) :=
  serverListenLoop_spec uRes tRes _

/-! ### serverListenUnix and its failure cleanup (C10) -/

inductive FsEffect
  | mkTempDir (base : GoStr)
  | bindSocket (path : GoStr)
  | removeAll (path : GoStr)
deriving DecidableEq, Repr

/-- `filepath.IsAbs` on Unix platforms. -/
def isAbsPath (s : GoStr) : Bool := decide (s.head? = some '/')

/-- Nondeterminism in `serverListenUnix`: the random suffix chosen by
`ioutil.TempDir` (`none` = creation failure) and the bind outcome. -/
structure UnixListenWorld where
  tempDirSuffix : Option GoStr
  bindOk : Bool
deriving DecidableEq, Repr

/-- Model of `serverListenUnix` (server_listener.go lines 92-119).
`ioutil.TempDir(baseDir, "rpcplugin")` creates `baseDir/rpcplugin<suffix>`
(under the system temporary directory `sysTmp` when `baseDir` is empty).
NOTE: this embeds the code as written — the error path after a failed bind
calls `os.RemoveAll(baseDir)`, the *base* directory variable (the empty
string when `XDG_RUNTIME_DIR` is not used), not the just-created socket
directory. -/
def serverListenUnix (env : Env) (sysTmp : GoStr) (w : UnixListenWorld) :
    Except GoStr Listener × List FsEffect :=
  let runtimeDir := getenv env (gs "XDG_RUNTIME_DIR")
  let baseDir := if runtimeDir ≠ [] ∧ isAbsPath runtimeDir = true
    then runtimeDir else []
  match w.tempDirSuffix with
  | none =>
    (.error (gs "failed to create temporary directory for plugin server socket"),
     [.mkTempDir baseDir])
  | some suffix =>
    let socketDir := (if baseDir = [] then sysTmp else baseDir)
      ++ gs "/rpcplugin" ++ suffix
    let socketPath := socketDir ++ gs "/server.sock"
    if w.bindOk then
      (.ok ⟨gs "unix", socketPath⟩,
       [.mkTempDir baseDir, .bindSocket socketPath])
    else
      (.error (gs "failed to open listener"),
       [.mkTempDir baseDir, .bindSocket socketPath, .removeAll baseDir])

/-- C10 (code bug).  When the temporary socket directory is created but the
bind fails, the code removes `baseDir` — with `XDG_RUNTIME_DIR` set, that
is the user's entire runtime directory; with it unset, the empty string (a
no-op) — and in neither case removes the freshly created temporary
directory, contradicting the claim that exactly the fresh directory is
cleaned up. -/
theorem unix_bind_failure_removes_base_dir :
    (serverListenUnix [(gs "XDG_RUNTIME_DIR", gs "/run/user/1000")] (gs "/tmp")
        ⟨some (gs "123"), false⟩).2 =
      [.mkTempDir (gs "/run/user/1000"),
       .bindSocket (gs "/run/user/1000/rpcplugin123/server.sock"),
       .removeAll (gs "/run/user/1000")]
    ∧ FsEffect.removeAll (gs "/run/user/1000/rpcplugin123")
        ∉ (serverListenUnix [(gs "XDG_RUNTIME_DIR", gs "/run/user/1000")]
            (gs "/tmp") ⟨some (gs "123"), false⟩).2
    ∧ (serverListenUnix [] (gs "/tmp") ⟨some (gs "123"), false⟩).2 =
      [.mkTempDir [], .bindSocket (gs "/tmp/rpcplugin123/server.sock"),
       .removeAll []] :=
  ⟨rfl, by decide, rfl⟩

end Rpcplugin
